import Mathlib

/-!
# Calendar, observers and reminder strategies (oop_kalendar.cxx)

A shallow embedding of the classes of `src/oop_kalendar.cxx`:

* `Date`, `Event`, `Reminder` are the value records of the source; the `int`
  fields of `Date` are integers (the source only compares and prints them, so
  no arithmetic can overflow).
* An `Observer*` is an address (`ObserverPtr`, a natural number, `0` being
  `nullptr`); the objects behind the addresses live in a `Heap`.  Calling
  `update` through a pointer that does not refer to a live observer is
  undefined behaviour in C++; the embedding stops the running operation there
  and reports it (`completed = false`).
* The effects of the program are explicit traces: every `observer->update(..)`
  is an `UpdateCall`, every `reminderStrategy->remind(..)` is a `RemindCall`.
* A `unique_ptr<ReminderStrategy>` is an `Option ReminderStrategy`
  (`none` is the empty pointer).
-/

namespace Kalendar

/-! ## Value types -/

/-- The record `struct Date` with its three `int` fields. -/
structure Date where
  day : Int
  month : Int
  year : Int
  deriving DecidableEq, Repr

/-- The member `Date::operator==`: the conjunction of the three field comparisons. -/
def Date.opEq (a other : Date) : Bool :=
  decide (a.day = other.day) && decide (a.month = other.month) && decide (a.year = other.year)

/-- The member `Date::operator<`: the cascade of early returns of the source. -/
def Date.opLt (a other : Date) : Bool :=
  if a.year < other.year then true
  else if a.year > other.year then false
  else if a.month < other.month then true
  else if a.month > other.month then false
  else decide (a.day < other.day)

/-- The member `Date::operator>`: neither less-than nor equal. -/
def Date.opGt (a other : Date) : Bool :=
  !(a.opLt other) && !(a.opEq other)

/-- The stream output `operator<<(ostream&, const Date&)`: day, month and year
in decimal, separated by slashes. -/
def Date.print (date : Date) : String :=
  toString date.day ++ "/" ++ toString date.month ++ "/" ++ toString date.year

/-- The record `struct Event`. -/
structure Event where
  date : Date
  description : String
  deriving DecidableEq, Repr

/-- The record `struct Reminder`. -/
structure Reminder where
  date : Date
  message : String
  deriving DecidableEq, Repr

/-! ## Observers -/

/-- An implementation of the abstract class `Observer`: the text that its
`update` writes to `cout` for a reminder. -/
structure Observer where
  update : Reminder → String

/-- The class `ConsoleObserver`. -/
def ConsoleObserver : Observer where
  update := fun reminder =>
    "Уведомление в консоли: " ++ reminder.message ++ " (" ++ reminder.date.print ++ ")" ++ "\n"

/-- The class `EmailObserver`. -/
def EmailObserver : Observer where
  update := fun reminder =>
    "Отправка email: " ++ reminder.message ++ " (" ++ reminder.date.print ++ ")" ++ "\n"

/-- A value of type `Observer*`: an address. -/
abbrev ObserverPtr := Nat

/-- The null pointer. -/
def nullptr : ObserverPtr := 0

/-- The observer objects that are alive, by address. -/
abbrev Heap := ObserverPtr → Option Observer

/-- Dereferencing an `Observer*`: the null pointer and the addresses without a
live object give nothing. -/
def deref (heap : Heap) (observer : ObserverPtr) : Option Observer :=
  if observer = nullptr then none else heap observer

/-- One executed call `observer->update(reminder)`: the pointer it went through,
its argument, what `getAllReminders()` of the notifying calendar returns while
the call runs, and the text the observer wrote. -/
structure UpdateCall where
  target : ObserverPtr
  arg : Reminder
  visible : List Reminder
  out : String
  deriving DecidableEq, Repr

/-! ## The standard algorithms used by `removeObserver` -/

/-- The loop of `std::remove(first, last, value)` over a buffer: `read` walks
over the `n` remaining positions, every element different from `value` is
assigned to position `write`. Returns the buffer and the new logical end. -/
def stdRemoveLoop {α : Type} [DecidableEq α] (value : α) :
    Nat → Nat → Nat → List α → List α × Nat
  | 0, _, write, buf => (buf, write)
  | n + 1, read, write, buf =>
    match buf[read]? with
    | none => (buf, write)
    | some x =>
      if x = value then stdRemoveLoop value n (read + 1) write buf
      else stdRemoveLoop value n (read + 1) (write + 1) (buf.set write x)

/-- The algorithm `std::remove(v.begin(), v.end(), value)`. -/
def stdRemove {α : Type} [DecidableEq α] (v : List α) (value : α) : List α × Nat :=
  stdRemoveLoop value v.length 0 0 v

/-- The member `vector::erase(first, last)` with positions as indices. -/
def vectorErase {α : Type} (v : List α) (first last : Nat) : List α :=
  v.take first ++ v.drop last

/-! ## Calendar -/

/-- The private members of `class Calendar`. -/
structure Calendar where
  observers : List ObserverPtr
  reminders : List Reminder
  events : List Event
  deriving DecidableEq, Repr

/-- A default-constructed calendar: three empty vectors. -/
def Calendar.empty : Calendar := ⟨[], [], []⟩

/-- The member `Calendar::addObserver`: `observers.push_back(observer)`. -/
def Calendar.addObserver (c : Calendar) (observer : ObserverPtr) : Calendar :=
  { c with observers := c.observers ++ [observer] }

/-- The member `Calendar::removeObserver`: the erase-remove idiom. -/
def Calendar.removeObserver (c : Calendar) (observer : ObserverPtr) : Calendar :=
  let removed := stdRemove c.observers observer
  { c with observers := vectorErase removed.1 removed.2 removed.1.length }

/-- The member `Calendar::getAllReminders`: a copy of the vector. -/
def Calendar.getAllReminders (c : Calendar) : List Reminder := c.reminders

/-- The member `Calendar::getAllEvents`: a copy of the vector. -/
def Calendar.getAllEvents (c : Calendar) : List Event := c.events

/-- The member `Calendar::getRemindersByDate`: the loop pushes every reminder
whose date compares equal onto an initially empty result. -/
def Calendar.getRemindersByDate (c : Calendar) (date : Date) : List Reminder :=
  c.reminders.foldl
    (fun reminders_by_date reminder =>
      if reminder.date.opEq date then reminders_by_date ++ [reminder] else reminders_by_date)
    []

/-- The member `Calendar::getEventsByDate`: the same loop over the events. -/
def Calendar.getEventsByDate (c : Calendar) (date : Date) : List Event :=
  c.events.foldl
    (fun events_by_date event =>
      if event.date.opEq date then events_by_date ++ [event] else events_by_date)
    []

/-- What a run of `notify` did: the calls it made and whether the loop ran to
its end (`false`: it stopped at a pointer that does not refer to a live observer). -/
structure Notified where
  calls : List UpdateCall
  completed : Bool
  deriving DecidableEq, Repr

/-- The loop of `Calendar::notify` over the remaining registry entries. -/
def notifyLoop (heap : Heap) (c : Calendar) (reminder : Reminder) :
    List ObserverPtr → Notified
  | [] => ⟨[], true⟩
  | observer :: rest =>
    match deref heap observer with
    | none => ⟨[], false⟩
    | some o =>
      let later := notifyLoop heap c reminder rest
      ⟨⟨observer, reminder, c.getAllReminders, o.update reminder⟩ :: later.calls,
        later.completed⟩

/-- The private member `Calendar::notify`. -/
def Calendar.notify (heap : Heap) (c : Calendar) (reminder : Reminder) : Notified :=
  notifyLoop heap c reminder c.observers

/-- The result of one calendar operation: the calendar afterwards (at the
fault, when there is one), the `update` calls made, and whether the operation
returned. -/
structure Outcome where
  cal : Calendar
  calls : List UpdateCall
  completed : Bool
  deriving DecidableEq, Repr

/-- The member `Calendar::addReminder`: `push_back`, then `notify`. -/
def Calendar.addReminder (heap : Heap) (c : Calendar) (reminder : Reminder) : Outcome :=
  let c1 : Calendar := { c with reminders := c.reminders ++ [reminder] }
  let n := c1.notify heap reminder
  ⟨c1, n.calls, n.completed⟩

/-- The member `Calendar::addEvent`: `events.push_back(event)`. -/
def Calendar.addEvent (c : Calendar) (event : Event) : Calendar :=
  { c with events := c.events ++ [event] }

/-- A call of one public member function of `Calendar`. -/
inductive Op where
  | addObserver (observer : ObserverPtr)
  | removeObserver (observer : ObserverPtr)
  | addReminder (reminder : Reminder)
  | addEvent (event : Event)
  | getRemindersByDate (date : Date)
  | getEventsByDate (date : Date)
  | getAllReminders
  | getAllEvents
  deriving DecidableEq, Repr

/-- Executing one public call on a calendar. The queries leave the calendar as it is. -/
def Calendar.step (heap : Heap) (c : Calendar) : Op → Outcome
  | .addObserver observer => ⟨c.addObserver observer, [], true⟩
  | .removeObserver observer => ⟨c.removeObserver observer, [], true⟩
  | .addReminder reminder => c.addReminder heap reminder
  | .addEvent event => ⟨c.addEvent event, [], true⟩
  | .getRemindersByDate _ => ⟨c, [], true⟩
  | .getEventsByDate _ => ⟨c, [], true⟩
  | .getAllReminders => ⟨c, [], true⟩
  | .getAllEvents => ⟨c, [], true⟩

/-- Executing a sequence of public calls in program order; the calls made are
collected, and execution stops at the first call that does not return. -/
def Calendar.run (heap : Heap) (c : Calendar) : List Op → Outcome
  | [] => ⟨c, [], true⟩
  | op :: ops =>
    let first := c.step heap op
    if first.completed then
      let others := first.cal.run heap ops
      ⟨others.cal, first.calls ++ others.calls, others.completed⟩
    else first

/-! ## Reminder strategies and the scheduler -/

/-- An implementation of the abstract class `ReminderStrategy`: the text that
its `remind` writes to `cout` for a reminder. -/
structure ReminderStrategy where
  remind : Reminder → String

/-- The class `DefaultReminder`. -/
def DefaultReminder : ReminderStrategy where
  remind := fun reminder =>
    "Напоминание: " ++ reminder.message ++ " (" ++ reminder.date.print ++ ")" ++ "\n"

/-- The class `PrioritizedReminder`. -/
def PrioritizedReminder : ReminderStrategy where
  remind := fun reminder =>
    "[Важно] Напоминание: " ++ reminder.message ++ " (" ++ reminder.date.print ++ ")" ++ "\n"

/-- One executed call `reminderStrategy->remind(reminder)`: the strategy object
it ran on, its argument and the text written. -/
structure RemindCall where
  callee : ReminderStrategy
  arg : Reminder
  out : String

/-- The class `ReminderScheduler`: its only member is the owning pointer. -/
structure ReminderScheduler where
  reminderStrategy : Option ReminderStrategy

/-- The constructor `ReminderScheduler(unique_ptr<ReminderStrategy>)`. -/
def ReminderScheduler.new (strategy : Option ReminderStrategy) : ReminderScheduler :=
  ⟨strategy⟩

/-- The member `ReminderScheduler::setReminderStrategy`: move-assignment of the pointer. -/
def ReminderScheduler.setReminderStrategy (_s : ReminderScheduler)
    (strategy : Option ReminderStrategy) : ReminderScheduler :=
  ⟨strategy⟩

/-- What a run of `runReminders` did: the `remind` calls it made and whether
the loop ran to its end (`false`: it stopped at a call through the empty pointer). -/
structure Ran where
  calls : List RemindCall
  completed : Bool

/-- The member `ReminderScheduler::runReminders`: the loop over the given vector. -/
def ReminderScheduler.runReminders (s : ReminderScheduler) : List Reminder → Ran
  | [] => ⟨[], true⟩
  | reminder :: rest =>
    match s.reminderStrategy with
    | none => ⟨[], false⟩
    | some strategy =>
      let later := s.runReminders rest
      ⟨⟨strategy, reminder, strategy.remind reminder⟩ :: later.calls, later.completed⟩

/-- A call of one public member function of `ReminderScheduler`. -/
inductive SchedulerOp where
  | setReminderStrategy (strategy : Option ReminderStrategy)
  | runReminders (reminders : List Reminder)

/-- The result of a sequence of scheduler calls: the scheduler afterwards, the
`remind` calls made, and whether every call returned. -/
structure Executed where
  scheduler : ReminderScheduler
  calls : List RemindCall
  completed : Bool

/-- Executing a sequence of scheduler calls in program order; the `remind`
calls are collected, and execution stops at the first call that does not return. -/
def ReminderScheduler.exec (s : ReminderScheduler) : List SchedulerOp → Executed
  | [] => ⟨s, [], true⟩
  | .setReminderStrategy strategy :: ops => (s.setReminderStrategy strategy).exec ops
  | .runReminders reminders :: ops =>
    let first := s.runReminders reminders
    if first.completed then
      let others := s.exec ops
      ⟨others.scheduler, first.calls ++ others.calls, others.completed⟩
    else ⟨s, first.calls, false⟩

/-! ## Reference notions used in the statements -/

/-- The lexicographic order on (year, month, day), written out: the
comparison the specification names for dates. -/
def Date.lexLt (a b : Date) : Prop :=
  a.year < b.year ∨
    (a.year = b.year ∧ (a.month < b.month ∨ (a.month = b.month ∧ a.day < b.day)))

/-- Every registered pointer refers to a live observer: the obligation the
data model puts on the callers of `addObserver`. -/
def Calendar.Registered (heap : Heap) (c : Calendar) : Prop :=
  ∀ observer ∈ c.observers, ∃ o, deref heap observer = some o

/-- The number of `update` calls in a trace that went to the observer `x`. -/
def updatesTo (x : ObserverPtr) (calls : List UpdateCall) : Nat :=
  calls.countP (fun u => decide (u.target = x))

/-- A sample heap: a console observer at address 1, an email observer at address 2. -/
def sampleHeap : Heap := fun p =>
  if p = 1 then some ConsoleObserver else if p = 2 then some EmailObserver else none

/-- A sample reminder. -/
def sampleReminder : Reminder := ⟨⟨10, 11, 2024⟩, "Купить подарки"⟩

/-! ## The program `main` -/

/-- The address of the local object `consoleObserver` of `main`. -/
def consoleObserver : ObserverPtr := 1

/-- The address of the local object `emailObserver` of `main`. -/
def emailObserver : ObserverPtr := 2

/-- The observer objects alive during `main`: its two local observers. -/
def mainHeap : Heap := fun p =>
  if p = consoleObserver then some ConsoleObserver
  else if p = emailObserver then some EmailObserver
  else none

/-- What a run of `main` does, statement by statement: the outcome of each
`addReminder`, the value of each query, the two scheduler runs, everything
written to `cout` in order, and whether every call returned. -/
structure MainRun where
  added1 : Outcome
  added2 : Outcome
  eventsForCheck : List Event
  remindersForCheck : List Reminder
  allReminders : List Reminder
  run1 : Ran
  run2 : Ran
  added3 : Outcome
  cout : List String
  completed : Bool

/-- The function `main`, statement by statement. -/
def main : MainRun :=
  let calendar := Calendar.empty
  let calendar := calendar.addObserver consoleObserver
  let calendar := calendar.addObserver emailObserver
  let eventDate : Date := ⟨15, 11, 2024⟩
  let event1 : Event := ⟨eventDate, "Встреча с друзьями"⟩
  let calendar := calendar.addEvent event1
  let reminderDate1 : Date := ⟨10, 11, 2024⟩
  let reminder1 : Reminder := ⟨reminderDate1, "Купить подарки"⟩
  let added1 := calendar.addReminder mainHeap reminder1
  let calendar := added1.cal
  let reminderDate2 : Date := ⟨15, 11, 2024⟩
  let reminder2 : Reminder := ⟨reminderDate2, "Поздравить с днем рождения"⟩
  let added2 := calendar.addReminder mainHeap reminder2
  let calendar := added2.cal
  let dateForCheck : Date := ⟨15, 11, 2024⟩
  let eventsForCheck := calendar.getEventsByDate dateForCheck
  let remindersForCheck := calendar.getRemindersByDate dateForCheck
  let allReminders := calendar.getAllReminders
  let scheduler := ReminderScheduler.new (some DefaultReminder)
  let run1 := scheduler.runReminders calendar.getAllReminders
  let scheduler := scheduler.setReminderStrategy (some PrioritizedReminder)
  let run2 := scheduler.runReminders calendar.getAllReminders
  let calendar := calendar.removeObserver emailObserver
  let reminderDate3 : Date := ⟨16, 11, 2024⟩
  let reminder3 : Reminder := ⟨reminderDate3, "Сходить в кино"⟩
  let added3 := calendar.addReminder mainHeap reminder3
  { added1 := added1
    added2 := added2
    eventsForCheck := eventsForCheck
    remindersForCheck := remindersForCheck
    allReminders := allReminders
    run1 := run1
    run2 := run2
    added3 := added3
    cout :=
      added1.calls.map (fun u => u.out) ++ added2.calls.map (fun u => u.out)
        ++ ["События на " ++ dateForCheck.print ++ ":" ++ "\n"]
        ++ eventsForCheck.map (fun event => " - " ++ event.description ++ "\n")
        ++ ["Напоминания на " ++ dateForCheck.print ++ ":" ++ "\n"]
        ++ remindersForCheck.map (fun reminder => " - " ++ reminder.message ++ "\n")
        ++ ["Все напоминания:" ++ "\n"]
        ++ allReminders.map
            (fun reminder => " - " ++ reminder.message ++ " (" ++ reminder.date.print ++ ")" ++ "\n")
        ++ run1.calls.map (fun k => k.out) ++ run2.calls.map (fun k => k.out)
        ++ added3.calls.map (fun u => u.out)
    completed :=
      added1.completed && added2.completed && run1.completed && run2.completed
        && added3.completed }

/-- The reminders that a sequence of calls adds, in call order. -/
def addedReminders : List Op → List Reminder
  | [] => []
  | Op.addReminder reminder :: ops => reminder :: addedReminders ops
  | _ :: ops => addedReminders ops

/-- The events that a sequence of calls adds, in call order. -/
def addedEvents : List Op → List Event
  | [] => []
  | Op.addEvent event :: ops => event :: addedEvents ops
  | _ :: ops => addedEvents ops

/-- A text occurs in a line: the line is the text with something before and after it. -/
def occursIn (part line : String) : Prop :=
  ∃ before after : String, line = before ++ part ++ after

/-- The scheduler produced by the constructor with the pointer `first`,
followed by one `setReminderStrategy` call for each pointer of `later`. -/
def ReminderScheduler.built (first : Option ReminderStrategy)
    (later : List (Option ReminderStrategy)) : ReminderScheduler :=
  ((ReminderScheduler.new first).exec (later.map SchedulerOp.setReminderStrategy)).scheduler

/-! ## Auxiliary lemmas -/

theorem take_succ_set_self {α : Type} (buf : List α) (w : Nat) (x : α) (hw : w < buf.length) :
    (buf.set w x).take (w + 1) = buf.take w ++ [x] := by
  induction buf generalizing w with
  | nil => simp at hw
  | cons b bs ih =>
    cases w with
    | zero => simp
    | succ k =>
      have hk : k < bs.length := by simpa using hw
      simp [ih k hk]

theorem stdRemoveLoop_take {α : Type} [DecidableEq α] (value : α) :
    ∀ (n read write : Nat) (buf : List α), write ≤ read → read + n = buf.length →
      (stdRemoveLoop value n read write buf).1.take (stdRemoveLoop value n read write buf).2
        = buf.take write ++ (buf.drop read).filter (fun y => decide (y ≠ value)) ∧
      (stdRemoveLoop value n read write buf).1.length = buf.length := by
  intro n
  induction n with
  | zero =>
    intro read write buf _ hlen
    have hdrop : buf.drop read = [] := List.drop_eq_nil_of_le (by omega)
    simp [stdRemoveLoop, hdrop]
  | succ n ih =>
    intro read write buf hwr hlen
    have hread : read < buf.length := by omega
    have hget : buf[read]? = some buf[read] := List.getElem?_eq_getElem hread
    have hdrop : buf.drop read = buf[read] :: buf.drop (read + 1) :=
      List.drop_eq_getElem_cons hread
    by_cases hx : buf[read] = value
    · have h := ih (read + 1) write buf (by omega) (by omega)
      simp only [stdRemoveLoop, hget, hx, if_true]
      rw [hdrop, List.filter_cons]
      simp only [hx, ne_eq, not_true_eq_false, decide_False, Bool.false_eq_true, if_false]
      exact h
    · have hlen2 : read + 1 + n = (buf.set write buf[read]).length := by
        simp only [List.length_set]; omega
      have h := ih (read + 1) (write + 1) (buf.set write buf[read]) (by omega) hlen2
      simp only [stdRemoveLoop, hget, hx, if_false]
      rw [hdrop]
      rw [List.drop_set_of_lt _ _ (by omega), take_succ_set_self _ _ _ (by omega)] at h
      rw [List.filter_cons]
      simp only [hx, ne_eq, not_false_eq_true, decide_True, if_true]
      rw [List.length_set] at h
      rw [List.append_assoc] at h
      exact h

theorem vectorErase_stdRemove {α : Type} [DecidableEq α] (v : List α) (value : α) :
    vectorErase (stdRemove v value).1 (stdRemove v value).2 (stdRemove v value).1.length
      = v.filter (fun y => decide (y ≠ value)) := by
  have h := stdRemoveLoop_take value v.length 0 0 v (Nat.le_refl 0) (by simp)
  unfold vectorErase stdRemove
  rw [h.1]
  simp

theorem removeObserver_observers (c : Calendar) (x : ObserverPtr) :
    (c.removeObserver x).observers = c.observers.filter (fun y => decide (y ≠ x)) := by
  simp only [Calendar.removeObserver]
  exact vectorErase_stdRemove c.observers x

theorem notifyLoop_registered (heap : Heap) (c : Calendar) (r : Reminder) :
    ∀ obs : List ObserverPtr, (∀ p ∈ obs, ∃ o, deref heap p = some o) →
      (notifyLoop heap c r obs).completed = true ∧
      (notifyLoop heap c r obs).calls.map (fun u => (u.target, u.arg))
        = obs.map (fun p => (p, r)) := by
  intro obs
  induction obs with
  | nil => intro _; simp [notifyLoop]
  | cons p ps ih =>
    intro hreg
    obtain ⟨o, ho⟩ := hreg p (List.mem_cons_self p ps)
    have hrest := ih (fun q hq => hreg q (List.mem_cons_of_mem p hq))
    simp only [notifyLoop, ho, List.map_cons]
    exact ⟨hrest.1, by rw [hrest.2]⟩

theorem notifyLoop_mem (heap : Heap) (c : Calendar) (r : Reminder) :
    ∀ obs : List ObserverPtr, ∀ u ∈ (notifyLoop heap c r obs).calls,
      u.target ∈ obs ∧ u.arg = r ∧ u.visible = c.getAllReminders := by
  intro obs
  induction obs with
  | nil => intro u hu; simp [notifyLoop] at hu
  | cons p ps ih =>
    intro u hu
    cases ho : deref heap p with
    | none => simp [notifyLoop, ho] at hu
    | some o =>
      simp only [notifyLoop, ho, List.mem_cons] at hu
      rcases hu with hu | hu
      · subst hu
        exact ⟨List.mem_cons_self _ _, rfl, rfl⟩
      · have h := ih u hu
        exact ⟨List.mem_cons_of_mem _ h.1, h.2⟩

theorem addReminder_calls_mem (heap : Heap) (c : Calendar) (r : Reminder) :
    ∀ u ∈ (c.addReminder heap r).calls,
      u.target ∈ c.observers ∧ u.arg = r ∧ u.visible = c.reminders ++ [r] := by
  intro u hu
  have h := notifyLoop_mem heap { c with reminders := c.reminders ++ [r] } r c.observers u hu
  exact h

theorem updatesTo_eq_zero (x : ObserverPtr) (calls : List UpdateCall)
    (h : ∀ u ∈ calls, u.target ≠ x) : updatesTo x calls = 0 := by
  unfold updatesTo
  rw [List.countP_eq_zero]
  intro u hu
  simpa using h u hu

theorem step_calls_target (heap : Heap) (c : Calendar) (op : Op) :
    ∀ u ∈ (c.step heap op).calls, u.target ∈ c.observers := by
  intro u hu
  cases op with
  | addReminder r => exact (addReminder_calls_mem heap c r u hu).1
  | _ => simp [Calendar.step] at hu

theorem step_not_registered (heap : Heap) (c : Calendar) (x : ObserverPtr) (op : Op)
    (hx : x ∉ c.observers) (hop : op ≠ Op.addObserver x) :
    x ∉ (c.step heap op).cal.observers := by
  cases op with
  | addObserver y =>
    have hy : x ≠ y := fun h => hop (by rw [h])
    simp [Calendar.step, Calendar.addObserver, hx, hy]
  | removeObserver y =>
    simp only [Calendar.step, removeObserver_observers]
    intro hmem
    exact hx (List.mem_of_mem_filter hmem)
  | addReminder r => simpa [Calendar.step, Calendar.addReminder] using hx
  | addEvent e => simpa [Calendar.step, Calendar.addEvent] using hx
  | getRemindersByDate d => simpa [Calendar.step] using hx
  | getEventsByDate d => simpa [Calendar.step] using hx
  | getAllReminders => simpa [Calendar.step] using hx
  | getAllEvents => simpa [Calendar.step] using hx

theorem run_not_registered (heap : Heap) (x : ObserverPtr) :
    ∀ (ops : List Op) (c : Calendar), x ∉ c.observers → Op.addObserver x ∉ ops →
      x ∉ (c.run heap ops).cal.observers ∧ ∀ u ∈ (c.run heap ops).calls, u.target ≠ x := by
  intro ops
  induction ops with
  | nil => intro c hx _; simpa [Calendar.run] using hx
  | cons op ops ih =>
    intro c hx hops
    have hop : op ≠ Op.addObserver x := fun h => hops (by rw [h]; exact List.mem_cons_self _ _)
    have hrest : Op.addObserver x ∉ ops := fun h => hops (List.mem_cons_of_mem _ h)
    have hfirst : ∀ u ∈ (c.step heap op).calls, u.target ≠ x := by
      intro u hu h
      exact hx (h ▸ step_calls_target heap c op u hu)
    have hx1 := step_not_registered heap c x op hx hop
    by_cases hc : (c.step heap op).completed = true
    · have h := ih (c.step heap op).cal hx1 hrest
      simp only [Calendar.run, hc, if_true]
      refine ⟨h.1, ?_⟩
      intro u hu
      rcases List.mem_append.mp hu with hu | hu
      · exact hfirst u hu
      · exact h.2 u hu
    · simp only [Calendar.run, hc]
      exact ⟨hx1, hfirst⟩

theorem removeObserver_not_registered (c : Calendar) (x : ObserverPtr) :
    x ∉ (c.removeObserver x).observers := by
  rw [removeObserver_observers]
  intro h
  have := List.of_mem_filter h
  simp at this

theorem foldl_push_eq_filter {α : Type} (p : α → Bool) (xs : List α) (acc : List α) :
    xs.foldl (fun out x => if p x then out ++ [x] else out) acc = acc ++ xs.filter p := by
  induction xs generalizing acc with
  | nil => simp
  | cons x xs ih =>
    simp only [List.foldl_cons, List.filter_cons]
    rw [ih]
    by_cases hp : p x = true
    · simp [hp]
    · simp [hp]

theorem opLt_iff (a b : Date) : a.opLt b = true ↔ a.lexLt b := by
  unfold Date.opLt Date.lexLt
  split_ifs with h1 h2 h3 h4
  · exact ⟨fun _ => Or.inl h1, fun _ => rfl⟩
  · exact ⟨fun h => absurd h (by decide), fun h => by omega⟩
  · exact ⟨fun _ => Or.inr ⟨by omega, Or.inl h3⟩, fun _ => rfl⟩
  · exact ⟨fun h => absurd h (by decide), fun h => by omega⟩
  · rw [decide_eq_true_eq]
    exact ⟨fun h => Or.inr ⟨by omega, Or.inr ⟨by omega, h⟩⟩, fun h => by omega⟩

theorem opEq_iff (a b : Date) :
    a.opEq b = true ↔ (a.day = b.day ∧ a.month = b.month ∧ a.year = b.year) := by
  unfold Date.opEq
  simp [and_assoc]


theorem runReminders_active (s : ReminderScheduler) (strategy : ReminderStrategy)
    (hs : s.reminderStrategy = some strategy) :
    ∀ rs : List Reminder, (s.runReminders rs).completed = true ∧
      (s.runReminders rs).calls = rs.map (fun r => ⟨strategy, r, strategy.remind r⟩) := by
  intro rs
  induction rs with
  | nil => simp [ReminderScheduler.runReminders]
  | cons r rs ih =>
    simp only [ReminderScheduler.runReminders, hs, List.map_cons]
    exact ⟨ih.1, by rw [ih.2]⟩

theorem updatesTo_addReminder (heap : Heap) (c : Calendar) (x : ObserverPtr) (r : Reminder)
    (hreg : c.Registered heap) :
    updatesTo x (c.addReminder heap r).calls = c.observers.count x := by
  have h := (notifyLoop_registered heap { c with reminders := c.reminders ++ [r] } r
    c.observers hreg).2
  have h1 : updatesTo x (c.addReminder heap r).calls
      = ((c.addReminder heap r).calls.map (fun u => (u.target, u.arg))).countP
          (fun pr => decide (pr.1 = x)) := by
    unfold updatesTo
    rw [List.countP_map]
    rfl
  rw [h1]
  have h2 : (c.addReminder heap r).calls.map (fun u => (u.target, u.arg))
      = c.observers.map (fun p => (p, r)) := h
  rw [h2, List.countP_map, List.count]
  apply List.countP_congr
  intro p _
  simp


/-! ## The claims -/

/-- C1, as stated, fails: with a null pointer registered between the console
and the email observer, `addReminder` makes the call to the console observer
only and does not return, so its calls are not the registry in order. -/
theorem addReminder_stops_at_null_entry :
    (Calendar.addReminder sampleHeap ⟨[1, nullptr, 2], [], []⟩ sampleReminder).calls.map
        (fun u => (u.target, u.arg))
      ≠ (⟨[1, nullptr, 2], [], []⟩ : Calendar).observers.map (fun p => (p, sampleReminder)) ∧
    (Calendar.addReminder sampleHeap ⟨[1, nullptr, 2], [], []⟩ sampleReminder).calls.map
        (fun u => u.target) = [1] ∧
    (Calendar.addReminder sampleHeap ⟨[1, nullptr, 2], [], []⟩ sampleReminder).completed
      = false := by
  refine ⟨by decide, by decide, by decide⟩

/-- C1, amended. On a calendar whose registered pointers all refer to live observers,
`addReminder(r)` returns, and the `update` calls it makes are exactly the
registry in registration order, each carrying `r`: one call per registration,
no other call, in registration order. -/
theorem addReminder_notifies_registry_in_order (heap : Heap) (c : Calendar) (r : Reminder)
    (hreg : c.Registered heap) :
    (c.addReminder heap r).completed = true ∧
    (c.addReminder heap r).calls.map (fun u => (u.target, u.arg))
      = c.observers.map (fun p => (p, r)) :=
  notifyLoop_registered heap { c with reminders := c.reminders ++ [r] } r c.observers hreg

theorem sample_registered : Calendar.Registered sampleHeap ⟨[1, 2, 1], [], []⟩ := by
  intro p hp
  simp only [List.mem_cons, List.mem_singleton, List.not_mem_nil, or_false] at hp
  rcases hp with h | h | h <;> subst h
  · exact ⟨ConsoleObserver, rfl⟩
  · exact ⟨EmailObserver, rfl⟩
  · exact ⟨ConsoleObserver, rfl⟩

/-- C1, at a registry holding the console observer twice and the email observer once. -/
theorem addReminder_notifies_registry_in_order_witness :
    Calendar.Registered sampleHeap ⟨[1, 2, 1], [], []⟩ ∧
    ((Calendar.addReminder sampleHeap ⟨[1, 2, 1], [], []⟩ sampleReminder).completed = true ∧
     (Calendar.addReminder sampleHeap ⟨[1, 2, 1], [], []⟩ sampleReminder).calls.map
        (fun u => (u.target, u.arg))
      = [(1, sampleReminder), (2, sampleReminder), (1, sampleReminder)]) :=
  ⟨sample_registered,
    addReminder_notifies_registry_in_order sampleHeap ⟨[1, 2, 1], [], []⟩ sampleReminder
      sample_registered⟩

/-- C2. After `removeObserver(x)`, followed by any calls that do not register
`x` again, `addReminder(r)` makes no `update` call to `x`, and neither does
any call of the whole sequence; nothing is assumed on how often `x` was
registered before. -/
theorem removeObserver_then_addReminder_no_update (heap : Heap) (c : Calendar)
    (x : ObserverPtr) (r : Reminder) (between : List Op)
    (hbetween : Op.addObserver x ∉ between) :
    updatesTo x
      ((c.run heap (Op.removeObserver x :: between)).cal.addReminder heap r).calls = 0 ∧
    updatesTo x (c.run heap (Op.removeObserver x :: (between ++ [Op.addReminder r]))).calls
      = 0 := by
  have hops1 : Op.addObserver x ∉ between ++ [Op.addReminder r] := by
    intro h
    rcases List.mem_append.mp h with h | h
    · exact hbetween h
    · simp at h
  have hrm := removeObserver_not_registered c x
  have h1 := run_not_registered heap x between (c.removeObserver x) hrm hbetween
  have h2 := run_not_registered heap x (between ++ [Op.addReminder r]) (c.removeObserver x)
    hrm hops1
  have e1 : c.run heap (Op.removeObserver x :: between)
      = (c.removeObserver x).run heap between := by
    simp [Calendar.run, Calendar.step]
  have e2 : c.run heap (Op.removeObserver x :: (between ++ [Op.addReminder r]))
      = (c.removeObserver x).run heap (between ++ [Op.addReminder r]) := by
    simp [Calendar.run, Calendar.step]
  rw [e1, e2]
  refine ⟨updatesTo_eq_zero x _ ?_, updatesTo_eq_zero x _ h2.2⟩
  intro u hu h
  exact h1.1 (h ▸ (addReminder_calls_mem heap _ r u hu).1)

/-- C2, at a calendar where the email observer is registered twice, with the
console observer registered anew in between. -/
theorem removeObserver_then_addReminder_no_update_witness :
    Op.addObserver 2 ∉ [Op.addEvent ⟨⟨15, 11, 2024⟩, "e"⟩, Op.addObserver 1] ∧
    (updatesTo 2
      ((Calendar.run sampleHeap ⟨[2, 1, 2], [], []⟩
        (Op.removeObserver 2 :: [Op.addEvent ⟨⟨15, 11, 2024⟩, "e"⟩, Op.addObserver 1])).cal.addReminder
          sampleHeap sampleReminder).calls = 0 ∧
     updatesTo 2 (Calendar.run sampleHeap ⟨[2, 1, 2], [], []⟩
        (Op.removeObserver 2 ::
          ([Op.addEvent ⟨⟨15, 11, 2024⟩, "e"⟩, Op.addObserver 1] ++
            [Op.addReminder sampleReminder]))).calls = 0) :=
  ⟨by decide,
    removeObserver_then_addReminder_no_update sampleHeap ⟨[2, 1, 2], [], []⟩ 2 sampleReminder
      [Op.addEvent ⟨⟨15, 11, 2024⟩, "e"⟩, Op.addObserver 1] (by decide)⟩


/-- C3. The two by-date queries return exactly the stored reminders (events)
whose date compares equal to `d` under `Date::operator==`, in insertion order;
the result is empty exactly when no stored item has date `d`. -/
theorem getByDate_eq_filter (c : Calendar) (d : Date) :
    c.getRemindersByDate d = c.reminders.filter (fun r => r.date.opEq d) ∧
    c.getEventsByDate d = c.events.filter (fun e => e.date.opEq d) ∧
    (c.getRemindersByDate d = [] ↔ ∀ r ∈ c.reminders, r.date.opEq d = false) ∧
    (c.getEventsByDate d = [] ↔ ∀ e ∈ c.events, e.date.opEq d = false) := by
  have hr : c.getRemindersByDate d = c.reminders.filter (fun r => r.date.opEq d) := by
    unfold Calendar.getRemindersByDate
    rw [foldl_push_eq_filter]
    simp
  have he : c.getEventsByDate d = c.events.filter (fun e => e.date.opEq d) := by
    unfold Calendar.getEventsByDate
    rw [foldl_push_eq_filter]
    simp
  refine ⟨hr, he, ?_, ?_⟩
  · rw [hr, List.filter_eq_nil_iff]
    simp
  · rw [he, List.filter_eq_nil_iff]
    simp

/-- C4. The three comparison operators of `Date` form a strict total order:
for any two dates exactly one of `a < b`, `a == b`, `a > b` holds, no date is
below itself, and `<` is transitive. -/
theorem date_strict_total_order (a b c : Date) :
    ((a.opLt b = true ∧ a.opEq b = false ∧ a.opGt b = false) ∨
     (a.opLt b = false ∧ a.opEq b = true ∧ a.opGt b = false) ∨
     (a.opLt b = false ∧ a.opEq b = false ∧ a.opGt b = true)) ∧
    a.opLt a = false ∧
    (a.opLt b = true → b.opLt c = true → a.opLt c = true) := by
  have hab := opLt_iff a b
  have hbc := opLt_iff b c
  have hac := opLt_iff a c
  have haa := opLt_iff a a
  have heq := opEq_iff a b
  refine ⟨?_, ?_, ?_⟩
  · by_cases hlt : a.opLt b = true
    · have hne : a.opEq b = false := by
        cases h : a.opEq b with
        | false => rfl
        | true =>
          have := heq.mp h
          have := hab.mp hlt
          unfold Date.lexLt at this
          omega
      left
      exact ⟨hlt, hne, by simp [Date.opGt, hlt]⟩
    · have hlt2 : a.opLt b = false := by simpa using hlt
      cases h : a.opEq b with
      | true => right; left; exact ⟨hlt2, rfl, by simp [Date.opGt, h]⟩
      | false => right; right; exact ⟨hlt2, rfl, by simp [Date.opGt, h, hlt2]⟩
  · cases h : a.opLt a with
    | false => rfl
    | true =>
      have := haa.mp h
      unfold Date.lexLt at this
      omega
  · intro h1 h2
    have l1 := hab.mp h1
    have l2 := hbc.mp h2
    apply hac.mpr
    unfold Date.lexLt at *
    omega

/-- C4, at three concrete dates in increasing order. -/
theorem date_strict_total_order_witness :
    (Date.opLt ⟨1, 2, 2024⟩ ⟨28, 2, 2024⟩ = true ∧ Date.opLt ⟨28, 2, 2024⟩ ⟨1, 1, 2025⟩ = true) ∧
    Date.opLt ⟨1, 2, 2024⟩ ⟨1, 1, 2025⟩ = true :=
  ⟨⟨by decide, by decide⟩,
    (date_strict_total_order ⟨1, 2, 2024⟩ ⟨28, 2, 2024⟩ ⟨1, 1, 2025⟩).2.2 (by decide) (by decide)⟩

/-- C5. For dates with arbitrary integer fields, `a < b` holds exactly when
(year, month, day) of `a` is lexicographically below that of `b`, and
`a == b` holds exactly when the three fields agree. -/
theorem date_lt_iff_lex_eq_iff_fields (a b : Date) :
    (a.opLt b = true ↔ a.lexLt b) ∧
    (a.opEq b = true ↔ (a.day = b.day ∧ a.month = b.month ∧ a.year = b.year)) :=
  ⟨opLt_iff a b, opEq_iff a b⟩


/-- C3, at a calendar none of whose reminders and events has the date asked for. -/
theorem getByDate_eq_filter_witness :
    Calendar.getRemindersByDate ⟨[], [sampleReminder], [⟨⟨15, 11, 2024⟩, "e"⟩]⟩ ⟨16, 11, 2024⟩ = [] ∧
    Calendar.getEventsByDate ⟨[], [sampleReminder], [⟨⟨15, 11, 2024⟩, "e"⟩]⟩ ⟨16, 11, 2024⟩ = [] :=
  ⟨(getByDate_eq_filter ⟨[], [sampleReminder], [⟨⟨15, 11, 2024⟩, "e"⟩]⟩ ⟨16, 11, 2024⟩).2.2.1.mpr
      (by decide),
    (getByDate_eq_filter ⟨[], [sampleReminder], [⟨⟨15, 11, 2024⟩, "e"⟩]⟩ ⟨16, 11, 2024⟩).2.2.2.mpr
      (by decide)⟩

/-- C6. `addReminder(r)` stores before it notifies: the calendar it leaves
holds the previous reminders followed by `r`, and during every `update` call
it makes `getAllReminders()` already returns the previous reminders followed
by `r`. -/
theorem addReminder_stores_before_notifying (heap : Heap) (c : Calendar) (r : Reminder) :
    (c.addReminder heap r).cal.getAllReminders = c.getAllReminders ++ [r] ∧
    ∀ u ∈ (c.addReminder heap r).calls, u.visible = c.getAllReminders ++ [r] :=
  ⟨rfl, fun u hu => (addReminder_calls_mem heap c r u hu).2.2⟩

/-- C6, at the call to the email observer on a calendar that already stores a reminder. -/
theorem addReminder_stores_before_notifying_witness :
    (⟨2, sampleReminder, [⟨⟨1, 1, 2024⟩, "a"⟩, sampleReminder],
        EmailObserver.update sampleReminder⟩ : UpdateCall)
      ∈ (Calendar.addReminder sampleHeap ⟨[1, 2], [⟨⟨1, 1, 2024⟩, "a"⟩], []⟩ sampleReminder).calls ∧
    (⟨2, sampleReminder, [⟨⟨1, 1, 2024⟩, "a"⟩, sampleReminder],
        EmailObserver.update sampleReminder⟩ : UpdateCall).visible
      = Calendar.getAllReminders ⟨[1, 2], [⟨⟨1, 1, 2024⟩, "a"⟩], []⟩ ++ [sampleReminder] :=
  ⟨List.mem_cons_of_mem _ (List.mem_cons_self _ _),
    (addReminder_stores_before_notifying sampleHeap ⟨[1, 2], [⟨⟨1, 1, 2024⟩, "a"⟩], []⟩
      sampleReminder).2 _ (List.mem_cons_of_mem _ (List.mem_cons_self _ _))⟩

/-- C7. A scheduler whose active strategy is `strategy` runs `remind` of that
strategy on every element of the given sequence, once each, in sequence
order, and makes no other call; the call returns and the scheduler is left as
it was. The sequence is a constant reference in the source and a value here,
so it has no state that could change. -/
theorem runReminders_calls_strategy_in_order (s : ReminderScheduler)
    (strategy : ReminderStrategy) (rs : List Reminder)
    (hs : s.reminderStrategy = some strategy) :
    (s.runReminders rs).completed = true ∧
    (s.runReminders rs).calls = rs.map (fun r => ⟨strategy, r, strategy.remind r⟩) ∧
    (s.exec [SchedulerOp.runReminders rs]).scheduler = s := by
  have h := runReminders_active s strategy hs rs
  refine ⟨h.1, h.2, ?_⟩
  simp [ReminderScheduler.exec, h.1]

/-- C7, at a scheduler built with the default strategy and two reminders. -/
theorem runReminders_calls_strategy_in_order_witness :
    (ReminderScheduler.new (some DefaultReminder)).reminderStrategy = some DefaultReminder ∧
    ((ReminderScheduler.new (some DefaultReminder)).runReminders
        [sampleReminder, ⟨⟨15, 11, 2024⟩, "b"⟩]).calls.map (fun k => k.arg)
      = [sampleReminder, ⟨⟨15, 11, 2024⟩, "b"⟩] :=
  ⟨rfl, by
    rw [(runReminders_calls_strategy_in_order (ReminderScheduler.new (some DefaultReminder))
      DefaultReminder [sampleReminder, ⟨⟨15, 11, 2024⟩, "b"⟩] rfl).2.1]
    rfl⟩

/-- C8. On a scheduler whose active strategy is `old`, running `rs1`, then
switching to `t`, then running `rs2` returns and yields the trace of the first
run alone (all of `rs1` through `old`) followed by all of `rs2` through `t`
and nothing else; the scheduler then holds `t`. -/
theorem setReminderStrategy_affects_later_runs_only (s : ReminderScheduler)
    (old t : ReminderStrategy) (rs1 rs2 : List Reminder)
    (hs : s.reminderStrategy = some old) :
    (s.exec [SchedulerOp.runReminders rs1]).calls
      = rs1.map (fun r => ⟨old, r, old.remind r⟩) ∧
    (s.exec [SchedulerOp.runReminders rs1, SchedulerOp.setReminderStrategy (some t),
        SchedulerOp.runReminders rs2]).calls
      = (s.exec [SchedulerOp.runReminders rs1]).calls
          ++ rs2.map (fun r => ⟨t, r, t.remind r⟩) ∧
    (s.exec [SchedulerOp.runReminders rs1, SchedulerOp.setReminderStrategy (some t),
        SchedulerOp.runReminders rs2]).completed = true ∧
    (s.exec [SchedulerOp.runReminders rs1, SchedulerOp.setReminderStrategy (some t),
        SchedulerOp.runReminders rs2]).scheduler.reminderStrategy = some t := by
  have h1 := runReminders_active s old hs rs1
  have h2 := runReminders_active ⟨some t⟩ t rfl rs2
  simp [ReminderScheduler.exec, h1.1, h1.2, h2.1, h2.2, ReminderScheduler.setReminderStrategy]

/-- C8, from the default strategy to the prioritized one. -/
theorem setReminderStrategy_affects_later_runs_only_witness :
    (ReminderScheduler.new (some DefaultReminder)).reminderStrategy = some DefaultReminder ∧
    ((ReminderScheduler.new (some DefaultReminder)).exec
        [SchedulerOp.runReminders [sampleReminder],
          SchedulerOp.setReminderStrategy (some PrioritizedReminder),
          SchedulerOp.runReminders [sampleReminder]]).scheduler.reminderStrategy
      = some PrioritizedReminder :=
  ⟨rfl,
    (setReminderStrategy_affects_later_runs_only (ReminderScheduler.new (some DefaultReminder))
      DefaultReminder PrioritizedReminder [sampleReminder] [sampleReminder] rfl).2.2.2⟩

/-- C9, as stated, fails: on a calendar whose registry holds a null pointer,
the email observer is not registered; after it is registered twice,
`addReminder` stops at the null entry and makes no `update` call to it,
although the registry holds it twice. -/
theorem addObserver_twice_behind_null_entry :
    (2 : ObserverPtr) ∉ (⟨[nullptr], [], []⟩ : Calendar).observers ∧
    ((Calendar.addObserver ⟨[nullptr], [], []⟩ 2).addObserver 2).observers.count 2 = 2 ∧
    updatesTo 2 (((Calendar.addObserver ⟨[nullptr], [], []⟩ 2).addObserver 2).addReminder
      sampleHeap sampleReminder).calls = 0 := by
  refine ⟨by decide, by decide, by decide⟩

/-- C9, amended. `addObserver(x)` appends `x` at the end of the registry whatever the
registry holds; when the registered pointers refer to live observers,
`addReminder(r)` makes as many `update` calls to `x` as the registry has
entries equal to `x`, hence exactly two after `x` was registered twice on a
calendar that did not hold it. -/
theorem addObserver_appends_without_duplicate_check (heap : Heap) (c : Calendar)
    (x : ObserverPtr) (r : Reminder) :
    (c.addObserver x).observers = c.observers ++ [x] ∧
    (c.Registered heap →
      updatesTo x (c.addReminder heap r).calls = c.observers.count x) ∧
    (((c.addObserver x).addObserver x).Registered heap → x ∉ c.observers →
      updatesTo x (((c.addObserver x).addObserver x).addReminder heap r).calls = 2) := by
  refine ⟨rfl, updatesTo_addReminder heap c x r, ?_⟩
  intro hreg hx
  rw [updatesTo_addReminder heap _ x r hreg]
  simp [Calendar.addObserver, List.count_eq_zero_of_not_mem hx]

theorem sample_registered_twice :
    Calendar.Registered sampleHeap ((Calendar.addObserver ⟨[1], [], []⟩ 2).addObserver 2) := by
  intro p hp
  simp only [Calendar.addObserver, List.cons_append, List.nil_append, List.mem_cons,
    List.mem_singleton, List.not_mem_nil, or_false] at hp
  rcases hp with h | h | h <;> subst h
  · exact ⟨ConsoleObserver, rfl⟩
  · exact ⟨EmailObserver, rfl⟩
  · exact ⟨EmailObserver, rfl⟩

/-- C9, registering the email observer twice next to the console observer. -/
theorem addObserver_appends_without_duplicate_check_witness :
    (Calendar.Registered sampleHeap ((Calendar.addObserver ⟨[1], [], []⟩ 2).addObserver 2) ∧
      2 ∉ (⟨[1], [], []⟩ : Calendar).observers) ∧
    updatesTo 2 (((Calendar.addObserver ⟨[1], [], []⟩ 2).addObserver 2).addReminder
      sampleHeap sampleReminder).calls = 2 :=
  ⟨⟨sample_registered_twice, by decide⟩,
    (addObserver_appends_without_duplicate_check sampleHeap ⟨[1], [], []⟩ 2 sampleReminder).2.2
      sample_registered_twice (by decide)⟩

/-- C10. `removeObserver(x)` for a pointer `x` that is not in the registry
returns without any fault or call and leaves the registry, the reminders and
the events as they were. -/
theorem removeObserver_unregistered_is_noop (heap : Heap) (c : Calendar) (x : ObserverPtr)
    (hx : x ∉ c.observers) :
    c.removeObserver x = c ∧
    c.step heap (Op.removeObserver x) = ⟨c, [], true⟩ := by
  have hobs : (c.removeObserver x).observers = c.observers := by
    rw [removeObserver_observers, List.filter_eq_self]
    intro y hy
    have : y ≠ x := fun h => hx (h ▸ hy)
    simpa using this
  have hcal : c.removeObserver x = c := by
    cases c with
    | mk obs rems evs =>
      simp only [Calendar.removeObserver] at hobs ⊢
      rw [hobs]
  exact ⟨hcal, by simp [Calendar.step, hcal]⟩

/-- C10, removing the email observer from a calendar that only holds the console observer. -/
theorem removeObserver_unregistered_is_noop_witness :
    2 ∉ (⟨[1, 1], [sampleReminder], []⟩ : Calendar).observers ∧
    Calendar.removeObserver ⟨[1, 1], [sampleReminder], []⟩ 2 = ⟨[1, 1], [sampleReminder], []⟩ :=
  ⟨by decide,
    (removeObserver_unregistered_is_noop sampleHeap ⟨[1, 1], [sampleReminder], []⟩ 2
      (by decide)).1⟩


/-! ## Lemmas on sequences of calendar calls -/

theorem step_cal_reminders (heap : Heap) (c : Calendar) (op : Op) :
    (c.step heap op).cal.reminders = c.reminders ++ addedReminders [op] := by
  cases op <;>
    simp [Calendar.step, Calendar.addReminder, Calendar.addObserver, Calendar.removeObserver,
      Calendar.addEvent, addedReminders]

theorem step_cal_events (heap : Heap) (c : Calendar) (op : Op) :
    (c.step heap op).cal.events = c.events ++ addedEvents [op] := by
  cases op <;>
    simp [Calendar.step, Calendar.addReminder, Calendar.addObserver, Calendar.removeObserver,
      Calendar.addEvent, addedEvents]

theorem addedReminders_cons (op : Op) (ops : List Op) :
    addedReminders (op :: ops) = addedReminders [op] ++ addedReminders ops := by
  cases op <;> simp [addedReminders]

theorem addedEvents_cons (op : Op) (ops : List Op) :
    addedEvents (op :: ops) = addedEvents [op] ++ addedEvents ops := by
  cases op <;> simp [addedEvents]

theorem run_completed_collections (heap : Heap) :
    ∀ (ops : List Op) (c : Calendar), (c.run heap ops).completed = true →
      (c.run heap ops).cal.reminders = c.reminders ++ addedReminders ops ∧
      (c.run heap ops).cal.events = c.events ++ addedEvents ops := by
  intro ops
  induction ops with
  | nil => intro c _; simp [Calendar.run, addedReminders, addedEvents]
  | cons op ops ih =>
    intro c hdone
    by_cases hc : (c.step heap op).completed = true
    · simp only [Calendar.run, hc, if_true] at hdone ⊢
      have h := ih (c.step heap op).cal hdone
      rw [h.1, h.2, step_cal_reminders, step_cal_events, addedReminders_cons op ops,
        addedEvents_cons op ops]
      simp
    · simp only [Calendar.run, hc] at hdone
      exact absurd hdone hc

theorem run_grows (heap : Heap) :
    ∀ (ops : List Op) (c : Calendar), ∃ (rs : List Reminder) (es : List Event),
      (c.run heap ops).cal.reminders = c.reminders ++ rs ∧
      (c.run heap ops).cal.events = c.events ++ es := by
  intro ops
  induction ops with
  | nil => intro c; exact ⟨[], [], by simp [Calendar.run]⟩
  | cons op ops ih =>
    intro c
    by_cases hc : (c.step heap op).completed = true
    · obtain ⟨rs, es, hr, he⟩ := ih (c.step heap op).cal
      refine ⟨addedReminders [op] ++ rs, addedEvents [op] ++ es, ?_, ?_⟩
      · simp only [Calendar.run, hc, if_true]
        rw [hr, step_cal_reminders, List.append_assoc]
      · simp only [Calendar.run, hc, if_true]
        rw [he, step_cal_events, List.append_assoc]
    · refine ⟨addedReminders [op], addedEvents [op], ?_, ?_⟩
      · simp only [Calendar.run, hc]
        exact step_cal_reminders heap c op
      · simp only [Calendar.run, hc]
        exact step_cal_events heap c op

/-! ## The claims, continued -/

/-- C11. `addEvent(e)` appends `e` at the end of the events, leaves the
reminders and the observer registry as they were, returns, and makes no
`update` call. -/
theorem addEvent_appends_without_notifying (heap : Heap) (c : Calendar) (e : Event) :
    (c.addEvent e).events = c.events ++ [e] ∧
    (c.addEvent e).reminders = c.reminders ∧
    (c.addEvent e).observers = c.observers ∧
    c.step heap (Op.addEvent e) = ⟨c.addEvent e, [], true⟩ :=
  ⟨rfl, rfl, rfl, rfl⟩

/-- C12. Starting from the empty calendar, after any sequence of public calls
that all returned, `getAllReminders()` is the list of the reminders added, in
the order of the calls, and `getAllEvents()` the list of the events added;
a query leaves the calendar as it is, so what is done to the returned value
(a copy in the source, a value here) cannot change a later answer. -/
theorem getAll_returns_insertion_order (heap : Heap) (ops : List Op)
    (hdone : (Calendar.empty.run heap ops).completed = true) :
    (Calendar.empty.run heap ops).cal.getAllReminders = addedReminders ops ∧
    (Calendar.empty.run heap ops).cal.getAllEvents = addedEvents ops ∧
    (∀ c : Calendar, (c.step heap Op.getAllReminders).cal = c ∧
      (c.step heap Op.getAllEvents).cal = c) := by
  have h := run_completed_collections heap ops Calendar.empty hdone
  refine ⟨?_, ?_, fun c => ⟨rfl, rfl⟩⟩
  · simpa [Calendar.getAllReminders, Calendar.empty] using h.1
  · simpa [Calendar.getAllEvents, Calendar.empty] using h.2

/-- C12, at a sequence that interleaves two reminders and an event with
registrations, a removal and queries. -/
theorem getAll_returns_insertion_order_witness :
    (Calendar.empty.run sampleHeap
        [Op.addObserver 1, Op.addReminder sampleReminder, Op.addEvent ⟨⟨15, 11, 2024⟩, "e"⟩,
          Op.getAllReminders, Op.removeObserver 1, Op.addObserver 2,
          Op.addReminder ⟨⟨15, 11, 2024⟩, "b"⟩, Op.getEventsByDate ⟨15, 11, 2024⟩]).completed
      = true ∧
    (Calendar.empty.run sampleHeap
        [Op.addObserver 1, Op.addReminder sampleReminder, Op.addEvent ⟨⟨15, 11, 2024⟩, "e"⟩,
          Op.getAllReminders, Op.removeObserver 1, Op.addObserver 2,
          Op.addReminder ⟨⟨15, 11, 2024⟩, "b"⟩, Op.getEventsByDate ⟨15, 11, 2024⟩]).cal.getAllReminders
      = [sampleReminder, ⟨⟨15, 11, 2024⟩, "b"⟩] :=
  ⟨rfl,
    (getAll_returns_insertion_order sampleHeap
      [Op.addObserver 1, Op.addReminder sampleReminder, Op.addEvent ⟨⟨15, 11, 2024⟩, "e"⟩,
        Op.getAllReminders, Op.removeObserver 1, Op.addObserver 2,
        Op.addReminder ⟨⟨15, 11, 2024⟩, "b"⟩, Op.getEventsByDate ⟨15, 11, 2024⟩] rfl).1⟩

/-- C13. The stored collections only grow: for every calendar and every public
call, and for every sequence of public calls, the reminders afterwards are the
reminders before followed by some list, and likewise the events. -/
theorem collections_only_grow (heap : Heap) (c : Calendar) :
    (∀ op : Op, ∃ (rs : List Reminder) (es : List Event),
      (c.step heap op).cal.reminders = c.reminders ++ rs ∧
      (c.step heap op).cal.events = c.events ++ es) ∧
    (∀ ops : List Op, ∃ (rs : List Reminder) (es : List Event),
      (c.run heap ops).cal.reminders = c.reminders ++ rs ∧
      (c.run heap ops).cal.events = c.events ++ es) :=
  ⟨fun op => ⟨addedReminders [op], addedEvents [op], step_cal_reminders heap c op,
      step_cal_events heap c op⟩,
    fun ops => run_grows heap ops c⟩


/-- C14. The run of `main`: each of the first two reminders is notified to the
console observer and then the email observer; the queries on 15/11/2024 give
the one event and the second reminder; `getAllReminders()` gives both
reminders in insertion order; the default strategy writes two plain lines and
the prioritized one two lines marked important; after the email observer is
removed, the third reminder is notified to the console observer only, once;
every call returns. -/
theorem main_scenario :
    main.added1.calls.map (fun u => (u.target, u.arg))
      = [(consoleObserver, ⟨⟨10, 11, 2024⟩, "Купить подарки"⟩),
         (emailObserver, ⟨⟨10, 11, 2024⟩, "Купить подарки"⟩)] ∧
    main.added2.calls.map (fun u => (u.target, u.arg))
      = [(consoleObserver, ⟨⟨15, 11, 2024⟩, "Поздравить с днем рождения"⟩),
         (emailObserver, ⟨⟨15, 11, 2024⟩, "Поздравить с днем рождения"⟩)] ∧
    main.eventsForCheck = [⟨⟨15, 11, 2024⟩, "Встреча с друзьями"⟩] ∧
    main.remindersForCheck = [⟨⟨15, 11, 2024⟩, "Поздравить с днем рождения"⟩] ∧
    main.allReminders
      = [⟨⟨10, 11, 2024⟩, "Купить подарки"⟩, ⟨⟨15, 11, 2024⟩, "Поздравить с днем рождения"⟩] ∧
    main.run1.calls.map (fun k => k.out)
      = ["Напоминание: Купить подарки (10/11/2024)\n",
         "Напоминание: Поздравить с днем рождения (15/11/2024)\n"] ∧
    main.run2.calls.map (fun k => k.out)
      = ["[Важно] Напоминание: Купить подарки (10/11/2024)\n",
         "[Важно] Напоминание: Поздравить с днем рождения (15/11/2024)\n"] ∧
    main.added3.calls.map (fun u => (u.target, u.arg))
      = [(consoleObserver, ⟨⟨16, 11, 2024⟩, "Сходить в кино"⟩)] ∧
    main.added3.calls.map (fun u => u.out)
      = ["Уведомление в консоли: Сходить в кино (16/11/2024)\n"] ∧
    main.completed = true := by
  refine ⟨by decide, by decide, by decide, by decide, by decide, by decide, by decide,
    by decide, by decide, by decide⟩


/-! ## Lemmas on faults -/

theorem step_registered (heap : Heap) (c : Calendar) (op : Op) (hreg : c.Registered heap)
    (hop : ∀ p, op = Op.addObserver p → ∃ o, deref heap p = some o) :
    (c.step heap op).cal.Registered heap ∧ (c.step heap op).completed = true := by
  cases op with
  | addObserver p =>
    refine ⟨?_, rfl⟩
    intro q hq
    simp only [Calendar.step, Calendar.addObserver, List.mem_append, List.mem_singleton] at hq
    rcases hq with hq | hq
    · exact hreg q hq
    · rw [hq]; exact hop p rfl
  | removeObserver p =>
    refine ⟨?_, rfl⟩
    intro q hq
    simp only [Calendar.step, removeObserver_observers] at hq
    exact hreg q (List.mem_of_mem_filter hq)
  | addReminder r =>
    exact ⟨hreg, (notifyLoop_registered heap _ r c.observers hreg).1⟩
  | addEvent e => exact ⟨hreg, rfl⟩
  | getRemindersByDate d => exact ⟨hreg, rfl⟩
  | getEventsByDate d => exact ⟨hreg, rfl⟩
  | getAllReminders => exact ⟨hreg, rfl⟩
  | getAllEvents => exact ⟨hreg, rfl⟩

theorem run_registered (heap : Heap) :
    ∀ (ops : List Op) (c : Calendar), c.Registered heap →
      (∀ p, Op.addObserver p ∈ ops → ∃ o, deref heap p = some o) →
      (c.run heap ops).completed = true := by
  intro ops
  induction ops with
  | nil => intro c _ _; rfl
  | cons op ops ih =>
    intro c hreg hops
    have hstep := step_registered heap c op hreg
      (fun p hp => hops p (by rw [hp]; exact List.mem_cons_self _ _))
    simp only [Calendar.run, hstep.2, if_true]
    exact ih _ hstep.1 (fun p hp => hops p (List.mem_cons_of_mem _ hp))

theorem runReminders_completed_iff (s : ReminderScheduler) :
    ∀ rs : List Reminder,
      (s.runReminders rs).completed = true ↔ (s.reminderStrategy.isSome = true ∨ rs = []) := by
  intro rs
  induction rs with
  | nil => simp [ReminderScheduler.runReminders]
  | cons r rs ih =>
    cases hs : s.reminderStrategy with
    | none => simp [ReminderScheduler.runReminders, hs]
    | some st =>
      simp only [ReminderScheduler.runReminders, hs]
      rw [ih, hs]
      simp

theorem exec_setReminderStrategy (later : List (Option ReminderStrategy)) :
    ∀ s : ReminderScheduler,
      (s.exec (later.map SchedulerOp.setReminderStrategy)).scheduler.reminderStrategy
        = later.getLast?.getD s.reminderStrategy := by
  induction later with
  | nil => intro s; simp [ReminderScheduler.exec]
  | cons p ps ih =>
    intro s
    simp only [List.map_cons, ReminderScheduler.exec]
    rw [ih]
    cases ps with
    | nil => simp [ReminderScheduler.setReminderStrategy]
    | cons q qs =>
      rw [List.getLast?_cons_cons, List.getLast?_eq_getLast (q :: qs) (List.cons_ne_nil q qs)]
      rfl

/-! ## The claims on faults -/

/-- C15, as stated, fails: after `addObserver(nullptr)` on the empty calendar,
`addReminder` calls `update` through the null pointer and does not return. -/
theorem addReminder_faults_on_null_observer :
    (Calendar.empty.run sampleHeap
      [Op.addObserver nullptr, Op.addReminder sampleReminder]).completed = false := by
  decide

/-- C15, amended. Every public call other than `addReminder` returns on every
calendar with every argument; `addReminder` returns whenever every registered
pointer refers to a live observer; so every sequence of public calls from the
empty calendar that only registers pointers to live observers returns. -/
theorem calendar_calls_return_when_registered (heap : Heap) :
    (∀ (c : Calendar) (op : Op), (∀ r, op ≠ Op.addReminder r) →
      (c.step heap op).completed = true) ∧
    (∀ (c : Calendar) (r : Reminder),
      c.Registered heap → (c.addReminder heap r).completed = true) ∧
    (∀ ops : List Op, (∀ p, Op.addObserver p ∈ ops → ∃ o, deref heap p = some o) →
      (Calendar.empty.run heap ops).completed = true) := by
  refine ⟨?_, ?_, ?_⟩
  · intro c op hop
    cases op with
    | addReminder r => exact absurd rfl (hop r)
    | _ => rfl
  · intro c r hreg
    exact (notifyLoop_registered heap _ r c.observers hreg).1
  · intro ops hops
    exact run_registered heap ops Calendar.empty (fun p hp => by simp [Calendar.empty] at hp) hops

/-- C15 amended, at a sequence that registers the console observer and adds a reminder. -/
theorem calendar_calls_return_when_registered_witness :
    (∀ p, Op.addObserver p ∈ [Op.addObserver 1, Op.addReminder sampleReminder] →
      ∃ o, deref sampleHeap p = some o) ∧
    (Calendar.empty.run sampleHeap [Op.addObserver 1, Op.addReminder sampleReminder]).completed
      = true :=
  ⟨fun p hp => by
      simp only [List.mem_cons, Op.addObserver.injEq, List.mem_singleton, List.not_mem_nil,
        or_false, reduceCtorEq] at hp
      subst hp
      exact ⟨ConsoleObserver, rfl⟩,
    (calendar_calls_return_when_registered sampleHeap).2.2
      [Op.addObserver 1, Op.addReminder sampleReminder]
      (fun p hp => by
        simp only [List.mem_cons, Op.addObserver.injEq, List.mem_singleton, List.not_mem_nil,
          or_false, reduceCtorEq] at hp
        subst hp
        exact ⟨ConsoleObserver, rfl⟩)⟩

/-- C16, as stated, fails: a scheduler constructed with the empty pointer does
not return from `runReminders` on a sequence of one reminder. -/
theorem runReminders_faults_on_empty_strategy :
    ((ReminderScheduler.new none).runReminders [sampleReminder]).completed = false := by
  decide

/-- C16, amended. The scheduler produced by the constructor and any number of
`setReminderStrategy` calls holds the pointer given last, and its
`runReminders(rs)` returns exactly when that pointer holds a strategy or `rs`
is empty. -/
theorem runReminders_returns_iff_strategy_held (first : Option ReminderStrategy)
    (later : List (Option ReminderStrategy)) (rs : List Reminder) :
    (ReminderScheduler.built first later).reminderStrategy = later.getLast?.getD first ∧
    (((ReminderScheduler.built first later).runReminders rs).completed = true ↔
      ((later.getLast?.getD first).isSome = true ∨ rs = [])) := by
  have h : (ReminderScheduler.built first later).reminderStrategy
      = later.getLast?.getD first := by
    unfold ReminderScheduler.built
    rw [exec_setReminderStrategy]
    rfl
  refine ⟨h, ?_⟩
  rw [runReminders_completed_iff, h]


/-! ## Lemmas on the written lines -/

theorem occursIn_message (head : String) (r : Reminder) :
    occursIn r.message (head ++ r.message ++ " (" ++ r.date.print ++ ")" ++ "\n") :=
  ⟨head, " (" ++ r.date.print ++ ")" ++ "\n", by simp only [String.append_assoc]⟩

theorem occursIn_date (head : String) (r : Reminder) :
    occursIn r.date.print (head ++ r.message ++ " (" ++ r.date.print ++ ")" ++ "\n") :=
  ⟨head ++ r.message ++ " (", ")" ++ "\n", by simp only [String.append_assoc]⟩

theorem getRemindersByDate_append (c : Calendar) (r : Reminder) (d : Date) :
    Calendar.getRemindersByDate { c with reminders := c.reminders ++ [r] } d
      = if r.date.opEq d then c.getRemindersByDate d ++ [r] else c.getRemindersByDate d := by
  simp only [Calendar.getRemindersByDate, List.foldl_append, List.foldl_cons, List.foldl_nil]

/-! ## The claims on lines, removal and frames -/

/-- C17. For every reminder, the line written by each of the two observers and
each of the two strategies contains the message of the reminder and its date
printed as day/month/year in decimal, and the line of the prioritized strategy
is the line of the default strategy with the marker "[Важно] " put in front. -/
theorem lines_contain_message_and_date (r : Reminder) :
    (occursIn r.message (ConsoleObserver.update r) ∧
      occursIn r.date.print (ConsoleObserver.update r)) ∧
    (occursIn r.message (EmailObserver.update r) ∧
      occursIn r.date.print (EmailObserver.update r)) ∧
    (occursIn r.message (DefaultReminder.remind r) ∧
      occursIn r.date.print (DefaultReminder.remind r)) ∧
    (occursIn r.message (PrioritizedReminder.remind r) ∧
      occursIn r.date.print (PrioritizedReminder.remind r)) ∧
    r.date.print
      = toString r.date.day ++ "/" ++ toString r.date.month ++ "/" ++ toString r.date.year ∧
    PrioritizedReminder.remind r = "[Важно] " ++ DefaultReminder.remind r := by
  refine ⟨⟨occursIn_message _ r, occursIn_date _ r⟩, ⟨occursIn_message _ r, occursIn_date _ r⟩,
    ⟨occursIn_message _ r, occursIn_date _ r⟩, ⟨occursIn_message _ r, occursIn_date _ r⟩,
    rfl, ?_⟩
  have hmark : "[Важно] Напоминание: " = "[Важно] " ++ "Напоминание: " := by decide
  simp only [PrioritizedReminder, DefaultReminder]
  rw [hmark]
  simp only [String.append_assoc]

/-- C18. `removeObserver(x)` leaves exactly the old registry without its
entries equal to `x`: the other entries keep their order and their number,
the reminders and the events are unchanged, the call returns without any
`update` call, and a second `removeObserver(x)` changes nothing. -/
theorem removeObserver_deletes_all_matching (heap : Heap) (c : Calendar) (x : ObserverPtr) :
    (c.removeObserver x).observers = c.observers.filter (fun y => decide (y ≠ x)) ∧
    x ∉ (c.removeObserver x).observers ∧
    (∀ y, y ≠ x → (c.removeObserver x).observers.count y = c.observers.count y) ∧
    (c.removeObserver x).reminders = c.reminders ∧
    (c.removeObserver x).events = c.events ∧
    c.step heap (Op.removeObserver x) = ⟨c.removeObserver x, [], true⟩ ∧
    (c.removeObserver x).removeObserver x = c.removeObserver x := by
  have hobs := removeObserver_observers c x
  have hobs2 := removeObserver_observers (c.removeObserver x) x
  refine ⟨hobs, removeObserver_not_registered c x, ?_, rfl, rfl, rfl, ?_⟩
  · intro y hy
    rw [hobs, List.count_filter]
    simpa using hy
  · have hsame : ((c.removeObserver x).removeObserver x).observers
        = (c.removeObserver x).observers := by
      rw [hobs2, hobs, List.filter_filter]
      simp
    cases hc : c.removeObserver x with
    | mk obs rems evs =>
      rw [hc] at hsame
      simp only [Calendar.removeObserver] at hsame ⊢
      rw [hsame]

/-- C18, at a registry that holds the email observer twice among three console entries. -/
theorem removeObserver_deletes_all_matching_witness :
    (1 : ObserverPtr) ≠ 2 ∧
    (Calendar.removeObserver ⟨[1, 2, 1, 2, 1], [], []⟩ 2).observers.count 1
      = (⟨[1, 2, 1, 2, 1], [], []⟩ : Calendar).observers.count 1 :=
  ⟨by decide,
    (removeObserver_deletes_all_matching sampleHeap ⟨[1, 2, 1, 2, 1], [], []⟩ 2).2.2.1 1
      (by decide)⟩

/-- C19. For all dates with arbitrary integer fields, `a > b` has the value of `b < a`. -/
theorem date_gt_eq_flipped_lt (a b : Date) :
    a.opGt b = b.opLt a ∧ (a.opGt b = true ↔ b.opLt a = true) := by
  have h1 := opLt_iff a b
  have h2 := opLt_iff b a
  have h3 := opEq_iff a b
  unfold Date.lexLt at h1 h2
  have hiff : a.opGt b = true ↔ b.opLt a = true := by
    rw [h2]
    unfold Date.opGt
    cases hlt : a.opLt b with
    | true =>
      have := h1.mp hlt
      simp only [Bool.not_true, Bool.false_and]
      constructor
      · intro h; exact absurd h (by decide)
      · intro h; omega
    | false =>
      have hn : ¬ (a.year < b.year ∨
          (a.year = b.year ∧ (a.month < b.month ∨ (a.month = b.month ∧ a.day < b.day)))) :=
        fun h => by rw [h1.mpr h] at hlt; exact absurd hlt (by decide)
      cases heq : a.opEq b with
      | true =>
        have := h3.mp heq
        simp only [Bool.not_true, Bool.and_false]
        constructor
        · intro h; exact absurd h (by decide)
        · intro h; omega
      | false =>
        have hne : ¬ (a.day = b.day ∧ a.month = b.month ∧ a.year = b.year) :=
          fun h => by rw [h3.mpr h] at heq; exact absurd heq (by decide)
        simp only [Bool.not_false, Bool.and_self, true_iff]
        omega
  exact ⟨Bool.eq_iff_iff.mpr hiff, hiff⟩

/-- C20. `addReminder(r)` leaves the events and the observer registry as they
were, and for every date `d` the by-date query afterwards is the query before
followed by `r` when the date of `r` equals `d`, and the query before otherwise. -/
theorem addReminder_changes_reminders_only (heap : Heap) (c : Calendar) (r : Reminder) :
    (c.addReminder heap r).cal.events = c.events ∧
    (c.addReminder heap r).cal.observers = c.observers ∧
    (∀ d : Date, (c.addReminder heap r).cal.getRemindersByDate d
      = if r.date.opEq d then c.getRemindersByDate d ++ [r] else c.getRemindersByDate d) ∧
    (∀ d : Date, (c.addReminder heap r).cal.getEventsByDate d = c.getEventsByDate d) :=
  ⟨rfl, rfl, fun d => getRemindersByDate_append c r d, fun _ => rfl⟩


end Kalendar
